import Mathlib

/-!
Verification development for the flashlight repository.

This file gives a shallow embedding, in Lean, of the algorithmic core of the
repository and proves the specification's claims about it:

* the `genconfig` tool (masquerade/CA discovery pipeline): the per-domain
  certificate-grabbing step `grabCerts`, the aggregation step
  `coalesceMasquerades` and the model assembly `buildModel`;
* the proxy client's request director (`buildReverseProxy`) and its
  loopback test `isNotLoopback`.

Modelling conventions:

* Go strings are Lean `String`s; Go `float64` values are modelled as `ℚ`
  (the arithmetic performed by the code — `count*100/total` — is exact for
  the magnitudes involved, so rational arithmetic is faithful).
* Go maps keyed by strings are modelled as association lists
  (`List (String × _)`) with overwriting insertion; map iteration order is
  irrelevant to every claim proved here.
* External collaborators (the TLS dialing library, name resolution, PEM
  encoding) are parameters of the embedded functions, so theorems hold for
  every possible behaviour of the collaborator.
* Go's in-place pointer mutation of shared `castat` records is rendered as
  functional update of the association list entry keyed by the PEM string;
  masquerade records are kept as received (no claim inspects the `freq`
  field through a masquerade's back-reference).
* `sort.Sort` is modelled by `List.insertionSort` with the reflexive
  closure of the corresponding `Less` relation: `sort.Sort`'s contract is
  exactly that the result is a permutation ordered by `Less`, which any
  correct sort realises.
-/

namespace Flashlight

/-- Structure `castat` from genconfig: a root CA's display name, its (newline-escaped)
PEM encoding, and its (eventually relative) frequency. -/
structure castat where
  CommonName : String
  Cert : String
  freq : ℚ
deriving DecidableEq, Repr

/-- Structure `masquerade` from genconfig: a probed domain, its resolved IP address and
the root CA of its verified chain. -/
structure masquerade where
  Domain : String
  IpAddress : String
  RootCA : castat
deriving DecidableEq, Repr

/-- Lookup in an association list modelling a Go `map[string]*castat`
(`allCAs[k]`, `nil` becoming `none`). -/
def lookupCA (k : String) : List (String × castat) → Option castat
  | [] => none
  | (k', v) :: rest => if k = k' then some v else lookupCA k rest

/-- Overwriting insertion in the association list (`allCAs[k] = v`). -/
def insertCA (k : String) (v : castat) : List (String × castat) → List (String × castat)
  | [] => [(k, v)]
  | (k', v') :: rest => if k = k' then (k, v) :: rest else (k', v') :: insertCA k v rest

/-- The mutable state of the coalescing loop in `coalesceMasquerades`:
the probe counter, the per-PEM CA table and the accumulated masquerades. -/
structure CoalesceState where
  count : Nat
  allCAs : List (String × castat)
  allMasquerades : List masquerade
deriving Repr

/-- One iteration of `for masquerade := range masqueradesCh` in
`coalesceMasquerades`: bump the counter, look up (or adopt) the CA record
keyed by the masquerade's PEM, bump its frequency, store it back, and append
the masquerade. -/
def coalesceStep (st : CoalesceState) (m : masquerade) : CoalesceState :=
  let ca := (lookupCA m.RootCA.Cert st.allCAs).getD m.RootCA
  let ca2 : castat := { ca with freq := ca.freq + 1 }
  { count := st.count + 1
    allCAs := insertCA ca2.Cert ca2 st.allCAs
    allMasquerades := st.allMasquerades ++ [m] }

/-- The whole coalescing loop, over the finite sequence of probe results
received on the channel. -/
def coalesceLoop (results : List masquerade) : CoalesceState :=
  results.foldl coalesceStep { count := 0, allCAs := [], allMasquerades := [] }

/-- Embeds `ca.freq = float64(ca.freq*100) / float64(count)`: make the occurrence
count a relative frequency. -/
def normalizeCA (count : Nat) (ca : castat) : castat :=
  { ca with freq := ca.freq * 100 / (count : ℚ) }

/-- The CA table after the frequency-normalisation loop of
`coalesceMasquerades`. -/
def normalizedCAsOf (results : List masquerade) : List (String × castat) :=
  (coalesceLoop results).allCAs.map (fun kc => (kc.1, normalizeCA (coalesceLoop results).count kc.2))

/-- The trusted-CA table: CAs whose relative frequency strictly exceeds
`*minFreq` (`if ca.freq > *minFreq`). -/
def trustedCAsOf (minFreq : ℚ) (results : List masquerade) : List (String × castat) :=
  (normalizedCAsOf results).filter (fun kc => decide (minFreq < kc.2.freq))

/-- The trusted masquerades: those whose root CA's PEM is a key of the
trusted-CA table (`_, caFound := trustedCAs[masquerade.RootCA.Cert]`). -/
def trustedMasqueradesOf (minFreq : ℚ) (results : List masquerade) : List masquerade :=
  (coalesceLoop results).allMasquerades.filter
    (fun m => (lookupCA m.RootCA.Cert (trustedCAsOf minFreq results)).isSome)

/-- Function `coalesceMasquerades`, as a function of the configured `*minFreq`
threshold and the finite stream of probe results. -/
def coalesceMasquerades (minFreq : ℚ) (results : List masquerade) :
    List (String × castat) × List masquerade :=
  (trustedCAsOf minFreq results, trustedMasqueradesOf minFreq results)

/-- Number of probe results whose root-CA PEM is exactly `k`. -/
def occurrences (k : String) (results : List masquerade) : Nat :=
  results.countP (fun m => decide (m.RootCA.Cert = k))

/-- The frequency currently recorded for PEM key `k` (0 when absent, which is
also the Go zero value the counter starts from). -/
def freqAt (k : String) (al : List (String × castat)) : ℚ :=
  match lookupCA k al with
  | some ca => ca.freq
  | none => 0

/-- Well-formedness of the CA table: every stored record's `Cert` field is
the key it is stored under (true throughout `coalesceMasquerades`). -/
def CAsWF (al : List (String × castat)) : Prop :=
  ∀ k ca, lookupCA k al = some ca → ca.Cert = k

theorem lookupCA_insertCA_self (k : String) (v : castat) (al : List (String × castat)) :
    lookupCA k (insertCA k v al) = some v := by
  induction al with
  | nil => simp [insertCA, lookupCA]
  | cons kv rest ih =>
    by_cases h : k = kv.1
    · simp [insertCA, h, lookupCA]
    · simp [insertCA, h, lookupCA, ih]

theorem lookupCA_insertCA_ne (k k' : String) (v : castat) (al : List (String × castat))
    (h : k ≠ k') : lookupCA k (insertCA k' v al) = lookupCA k al := by
  induction al with
  | nil => simp [insertCA, lookupCA, h]
  | cons kv rest ih =>
    obtain ⟨k2, v2⟩ := kv
    by_cases h2 : k' = k2
    · subst h2
      simp [insertCA, lookupCA, h]
    · simp only [insertCA, if_neg h2, lookupCA, ih]

theorem CAsWF_insertCA (al : List (String × castat)) (hwf : CAsWF al) (k : String)
    (v : castat) (hv : v.Cert = k) : CAsWF (insertCA k v al) := by
  intro k' ca h
  by_cases hk : k' = k
  · subst hk
    rw [lookupCA_insertCA_self] at h
    cases h
    exact hv
  · rw [lookupCA_insertCA_ne _ _ _ _ hk] at h
    exact hwf _ _ h

theorem CAsWF_coalesceStep (st : CoalesceState) (m : masquerade)
    (h : CAsWF st.allCAs) : CAsWF (coalesceStep st m).allCAs :=
  CAsWF_insertCA _ h _ _ rfl

theorem CAsWF_coalesceFold (l : List masquerade) (st : CoalesceState)
    (h : CAsWF st.allCAs) : CAsWF (l.foldl coalesceStep st).allCAs := by
  induction l generalizing st with
  | nil => exact h
  | cons m rest ih => exact ih _ (CAsWF_coalesceStep st m h)

theorem mem_keys_insertCA (a k : String) (v : castat) (al : List (String × castat)) :
    a ∈ (insertCA k v al).map Prod.fst ↔ a = k ∨ a ∈ al.map Prod.fst := by
  induction al with
  | nil => simp [insertCA]
  | cons kv rest ih =>
    obtain ⟨k2, v2⟩ := kv
    by_cases h2 : k = k2
    · subst h2
      simp [insertCA]
    · simp [insertCA, h2, ih]
      tauto

theorem keys_insertCA_nodup (k : String) (v : castat) (al : List (String × castat))
    (h : (al.map Prod.fst).Nodup) : ((insertCA k v al).map Prod.fst).Nodup := by
  induction al with
  | nil => simp [insertCA]
  | cons kv rest ih =>
    obtain ⟨k2, v2⟩ := kv
    rw [List.map_cons, List.nodup_cons] at h
    by_cases h2 : k = k2
    · subst h2
      simpa [insertCA] using h
    · rw [show insertCA k v ((k2, v2) :: rest) = (k2, v2) :: insertCA k v rest by
        simp [insertCA, h2]]
      rw [List.map_cons, List.nodup_cons]
      refine ⟨fun hmem => ?_, ih h.2⟩
      rcases (mem_keys_insertCA _ _ _ _).mp hmem with he | he
      · exact h2 he.symm
      · exact h.1 he

theorem keysNodup_coalesceFold (l : List masquerade) (st : CoalesceState)
    (h : (st.allCAs.map Prod.fst).Nodup) :
    (((l.foldl coalesceStep st).allCAs).map Prod.fst).Nodup := by
  induction l generalizing st with
  | nil => exact h
  | cons m rest ih => exact ih _ (keys_insertCA_nodup _ _ _ h)

theorem lookupCA_eq_of_mem (al : List (String × castat))
    (hnd : (al.map Prod.fst).Nodup) (k : String) (ca : castat) (h : (k, ca) ∈ al) :
    lookupCA k al = some ca := by
  induction al with
  | nil => cases h
  | cons kv rest ih =>
    obtain ⟨k2, v2⟩ := kv
    rw [List.map_cons, List.nodup_cons] at hnd
    rcases List.mem_cons.mp h with h1 | h1
    · have e1 : k = k2 := congrArg Prod.fst h1
      have e2 : ca = v2 := congrArg Prod.snd h1
      subst e1
      subst e2
      simp [lookupCA]
    · have hmm : k ∈ rest.map Prod.fst := List.mem_map_of_mem Prod.fst h1
      have hk : k ≠ k2 := fun e => hnd.1 (e ▸ hmm)
      simp only [lookupCA, if_neg hk]
      exact ih hnd.2 h1

theorem lookupCA_mem (al : List (String × castat)) (k : String) (ca : castat)
    (h : lookupCA k al = some ca) : (k, ca) ∈ al := by
  induction al with
  | nil => cases h
  | cons kv rest ih =>
    obtain ⟨k2, v2⟩ := kv
    by_cases hk : k = k2
    · subst hk
      simp only [lookupCA, if_pos rfl] at h
      cases h
      exact List.mem_cons_self _ _
    · simp only [lookupCA, if_neg hk] at h
      exact List.mem_cons_of_mem _ (ih h)

theorem freqAt_coalesceStep (st : CoalesceState) (m : masquerade)
    (hwf : CAsWF st.allCAs) (hm : m.RootCA.freq = 0) (k : String) :
    freqAt k (coalesceStep st m).allCAs
      = freqAt k st.allCAs + (if m.RootCA.Cert = k then 1 else 0) := by
  cases hl : lookupCA m.RootCA.Cert st.allCAs with
  | none =>
    have h2 : (coalesceStep st m).allCAs
        = insertCA m.RootCA.Cert { m.RootCA with freq := m.RootCA.freq + 1 } st.allCAs := by
      simp [coalesceStep, hl]
    by_cases hk : m.RootCA.Cert = k
    · subst hk
      simp [freqAt, h2, lookupCA_insertCA_self, hl, hm]
    · simp [freqAt, h2, lookupCA_insertCA_ne _ _ _ _ (Ne.symm hk), hk]
  | some c =>
    have hc : c.Cert = m.RootCA.Cert := hwf _ _ hl
    have h2 : (coalesceStep st m).allCAs
        = insertCA m.RootCA.Cert { c with freq := c.freq + 1 } st.allCAs := by
      simp [coalesceStep, hl, hc]
    by_cases hk : m.RootCA.Cert = k
    · subst hk
      simp [freqAt, h2, lookupCA_insertCA_self, hl]
    · simp [freqAt, h2, lookupCA_insertCA_ne _ _ _ _ (Ne.symm hk), hk]

theorem freqAt_coalesceFold (l : List masquerade) (st : CoalesceState)
    (hwf : CAsWF st.allCAs) (hm : ∀ m ∈ l, m.RootCA.freq = 0) (k : String) :
    freqAt k (l.foldl coalesceStep st).allCAs
      = freqAt k st.allCAs + (occurrences k l : ℚ) := by
  induction l generalizing st with
  | nil => simp [occurrences]
  | cons m rest ih =>
    rw [List.foldl_cons,
      ih (coalesceStep st m) (CAsWF_coalesceStep st m hwf)
        (fun m' h' => hm m' (List.mem_cons_of_mem _ h')),
      freqAt_coalesceStep st m hwf (hm m (List.mem_cons_self _ _))]
    simp only [occurrences, List.countP_cons]
    push_cast
    by_cases hk : m.RootCA.Cert = k
    · simp [hk]
      ring
    · simp [hk]

theorem coalesceFold_count (l : List masquerade) (st : CoalesceState) :
    (l.foldl coalesceStep st).count = st.count + l.length := by
  induction l generalizing st with
  | nil => simp
  | cons m rest ih =>
    rw [List.foldl_cons, ih]
    simp [coalesceStep]
    omega

theorem coalesceFold_masquerades (l : List masquerade) (st : CoalesceState) :
    (l.foldl coalesceStep st).allMasquerades = st.allMasquerades ++ l := by
  induction l generalizing st with
  | nil => simp
  | cons m rest ih =>
    rw [List.foldl_cons, ih]
    simp [coalesceStep]

theorem coalesceLoop_count (results : List masquerade) :
    (coalesceLoop results).count = results.length := by
  simpa [coalesceLoop] using
    coalesceFold_count results { count := 0, allCAs := [], allMasquerades := [] }

theorem coalesceLoop_masquerades (results : List masquerade) :
    (coalesceLoop results).allMasquerades = results := by
  simpa [coalesceLoop] using
    coalesceFold_masquerades results { count := 0, allCAs := [], allMasquerades := [] }

theorem coalesceLoop_freqAt (results : List masquerade)
    (hm : ∀ m ∈ results, m.RootCA.freq = 0) (k : String) :
    freqAt k (coalesceLoop results).allCAs = (occurrences k results : ℚ) := by
  have h := freqAt_coalesceFold results { count := 0, allCAs := [], allMasquerades := [] }
    (fun k ca h => by cases h) hm k
  simpa [coalesceLoop, freqAt, lookupCA] using h

theorem coalesceLoop_keysNodup (results : List masquerade) :
    (((coalesceLoop results).allCAs).map Prod.fst).Nodup := by
  simpa using keysNodup_coalesceFold results { count := 0, allCAs := [], allMasquerades := [] }
    (by simp)

theorem coalesceLoop_wf (results : List masquerade) : CAsWF (coalesceLoop results).allCAs :=
  CAsWF_coalesceFold results _ (fun k ca h => by cases h)

/-- A concrete probe result used in witnesses. -/
def mA : masquerade :=
  { Domain := "a.example", IpAddress := "1.2.3.4",
    RootCA := { CommonName := "Example Root", Cert := "PEM-A", freq := 0 } }

/-- The CA record produced for `mA` by aggregating the one-element stream
`[mA]`: one occurrence out of one successful probe, so frequency 100. -/
def caA : castat := { CommonName := "Example Root", Cert := "PEM-A", freq := 100 }

theorem normalizedCAsOf_mA : normalizedCAsOf [mA] = [("PEM-A", caA)] := by
  norm_num [normalizedCAsOf, coalesceLoop, coalesceStep, lookupCA, insertCA, normalizeCA,
    mA, caA]

/-- C1: a CA record produced by the aggregation phase is in `trustedCAs` iff
its relative frequency strictly exceeds the configured `minFreq` threshold;
a record whose frequency equals the threshold exactly is excluded. -/
theorem trustFilter_strict (minFreq : ℚ) (results : List masquerade)
    (kca : String × castat) (h : kca ∈ normalizedCAsOf results) :
    (kca ∈ trustedCAsOf minFreq results ↔ minFreq < kca.2.freq)
    ∧ (kca.2.freq = minFreq → kca ∉ trustedCAsOf minFreq results) := by
  constructor
  · simp [trustedCAsOf, List.mem_filter, h]
  · intro he hmem
    rw [trustedCAsOf, List.mem_filter] at hmem
    have hlt : minFreq < kca.2.freq := by simpa using hmem.2
    rw [he] at hlt
    exact lt_irrefl _ hlt

/-- Witness for C1 at the concrete one-result stream `[mA]` and
threshold 50. -/
theorem trustFilter_strict_witness :
    (("PEM-A", caA) ∈ normalizedCAsOf [mA])
    ∧ ((("PEM-A", caA) ∈ trustedCAsOf 50 [mA] ↔ (50 : ℚ) < ("PEM-A", caA).2.freq)
      ∧ (("PEM-A", caA).2.freq = 50 → ("PEM-A", caA) ∉ trustedCAsOf 50 [mA])) :=
  ⟨by rw [normalizedCAsOf_mA]; exact List.mem_singleton.mpr rfl,
    trustFilter_strict 50 [mA] ("PEM-A", caA)
      (by rw [normalizedCAsOf_mA]; exact List.mem_singleton.mpr rfl)⟩

/-- C2: every masquerade in the `trustedMasquerades` output references, by
exact PEM key, a CA record present in the `trustedCAs` output — no dangling
references. -/
theorem trustedMasquerades_no_dangling (minFreq : ℚ) (results : List masquerade)
    (m : masquerade) (h : m ∈ (coalesceMasquerades minFreq results).2) :
    ∃ ca, lookupCA m.RootCA.Cert (coalesceMasquerades minFreq results).1 = some ca := by
  simp only [coalesceMasquerades, trustedMasqueradesOf, List.mem_filter] at h
  simpa only [coalesceMasquerades, Option.isSome_iff_exists] using h.2

/-- Witness for C2 at the concrete one-result stream `[mA]` and
threshold 50. -/
theorem trustedMasquerades_no_dangling_witness :
    (mA ∈ (coalesceMasquerades 50 [mA]).2)
    ∧ ∃ ca, lookupCA mA.RootCA.Cert (coalesceMasquerades 50 [mA]).1 = some ca :=
  have hca : trustedCAsOf 50 [mA] = [("PEM-A", caA)] := by
    rw [trustedCAsOf, normalizedCAsOf_mA]
    norm_num [List.filter_cons, caA]
  have hmem : mA ∈ (coalesceMasquerades 50 [mA]).2 := by
    simp only [coalesceMasquerades, trustedMasqueradesOf, coalesceLoop_masquerades, hca]
    simp [List.mem_filter, mA, lookupCA]
  ⟨hmem, trustedMasquerades_no_dangling 50 [mA] mA hmem⟩

/-- C3: after coalescing a finite stream whose records carry the zero initial
frequency (as `grabCerts` produces them), every aggregated CA record's
relative frequency is its occurrence count times 100 divided by the total
number of successful probes, and lies in `[0, 100]`. -/
theorem coalesce_frequency (results : List masquerade)
    (h0 : ∀ m ∈ results, m.RootCA.freq = 0)
    (kca : String × castat) (h : kca ∈ normalizedCAsOf results) :
    kca.2.freq = (occurrences kca.1 results : ℚ) * 100 / (results.length : ℚ)
      ∧ 0 ≤ kca.2.freq ∧ kca.2.freq ≤ 100 := by
  have hlen : 0 < results.length := by
    rcases results with _ | ⟨r, rs⟩
    · simp [normalizedCAsOf, coalesceLoop] at h
    · simp
  obtain ⟨⟨k, ca0⟩, hmem0, heq⟩ := List.mem_map.mp h
  have hlk : lookupCA k (coalesceLoop results).allCAs = some ca0 :=
    lookupCA_eq_of_mem _ (coalesceLoop_keysNodup results) _ _ hmem0
  have hfq : ca0.freq = (occurrences k results : ℚ) := by
    have hf := coalesceLoop_freqAt results h0 k
    simpa only [freqAt, hlk] using hf
  have hval : kca.2.freq = (occurrences kca.1 results : ℚ) * 100 / (results.length : ℚ) := by
    rw [← heq]
    simp [normalizeCA, coalesceLoop_count, hfq]
  refine ⟨hval, ?_, ?_⟩
  · rw [hval]
    positivity
  · rw [hval]
    have hlen' : (0 : ℚ) < (results.length : ℚ) := by exact_mod_cast hlen
    have hocc : (occurrences kca.1 results : ℚ) ≤ (results.length : ℚ) := by
      exact_mod_cast List.countP_le_length _
    rw [div_le_iff₀ hlen']
    nlinarith

/-- Witness for C3 at the concrete one-result stream `[mA]`. -/
theorem coalesce_frequency_witness :
    (∀ m ∈ [mA], m.RootCA.freq = 0)
    ∧ (("PEM-A", caA).2.freq
        = (occurrences ("PEM-A", caA).1 [mA] : ℚ) * 100 / (([mA] : List masquerade).length : ℚ)
      ∧ 0 ≤ ("PEM-A", caA).2.freq ∧ ("PEM-A", caA).2.freq ≤ 100) :=
  ⟨by intro m hm; rw [List.mem_singleton.mp hm]; rfl,
    coalesce_frequency [mA] (by intro m hm; rw [List.mem_singleton.mp hm]; rfl)
      ("PEM-A", caA) (by rw [normalizedCAsOf_mA]; exact List.mem_singleton.mpr rfl)⟩

/-- C4: aggregating an empty stream of probe results yields empty
`trustedCAs` and `trustedMasquerades`; the frequency-normalisation loop body
never runs, so no division by the zero probe count is performed. -/
theorem coalesce_empty_stream (minFreq : ℚ) :
    coalesceMasquerades minFreq [] = ([], []) := rfl

/-! The per-domain probing step of a `grabCerts` worker. -/

/-- The part of an X.509 certificate `grabCerts` reads: its subject's
common name (`rootCA.Subject.CommonName`). -/
structure X509Cert where
  subjectCommonName : String
deriving DecidableEq, Repr

/-- The parts of tlsdialer's `ConnWithTimings` that `grabCerts` reads: the
verified certificate chains and the resolved address
(`cwt.ResolvedAddr.IP.String()`). -/
structure ConnWithTimings where
  VerifiedChains : List (List X509Cert)
  ResolvedIP : String
deriving DecidableEq, Repr

/-- The outcome of one iteration of the `grabCerts` domain loop. `panicked`
renders a Go runtime panic (out-of-range slice indexing), which kills the
worker. -/
inductive ProbeOutcome where
  | skippedBlacklisted
  | dialFailed
  | panicked
  | certLoadFailed
  | emitted (m : masquerade)
deriving DecidableEq, Repr

/-- Embeds `strings.Replace(s, "\n", "\\n", -1)` on the character list: every
newline becomes the two characters backslash, `n`. -/
def escapeChars : List Char → List Char
  | [] => []
  | c :: rest => if c = '\n' then '\\' :: 'n' :: escapeChars rest else c :: escapeChars rest

/-- Embeds `strings.Replace(string(rootCert.PEMEncoded()), "\n", "\\n", -1)`. -/
def escapeNewlines (s : String) : String := ⟨escapeChars s.data⟩

/-- One iteration of the domain loop in `grabCerts`, for domain `d`: the
blacklist check, the TLS dial (`dial` standing for the external
`tlsdialer.DialForTimings`, whose error/result pair is an `Except`), the
unguarded indexing `cwt.VerifiedChains[0]` and `chain[len(chain)-1]`
(a Go panic when the chain list, or the first chain, is empty), the PEM
encoding of the root (`pemOf` standing for
`keyman.LoadCertificateFromX509(...).PEMEncoded()`, `none` when loading
fails), and the construction of the emitted masquerade. -/
def grabCertsStep (blacklist : String → Bool)
    (dial : String → Except String ConnWithTimings)
    (pemOf : X509Cert → Option String) (d : String) : ProbeOutcome :=
  if blacklist d then ProbeOutcome.skippedBlacklisted
  else
    match dial d with
    | Except.error _ => ProbeOutcome.dialFailed
    | Except.ok cwt =>
      match cwt.VerifiedChains.head? with
      | none => ProbeOutcome.panicked
      | some chain =>
        match chain.getLast? with
        | none => ProbeOutcome.panicked
        | some rootCA =>
          match pemOf rootCA with
          | none => ProbeOutcome.certLoadFailed
          | some pem =>
            ProbeOutcome.emitted
              { Domain := d, IpAddress := cwt.ResolvedIP,
                RootCA := { CommonName := rootCA.subjectCommonName,
                            Cert := escapeNewlines pem, freq := 0 } }

/-- A `grabCerts` worker's whole domain loop: the masquerades it sends, or
`Except.error ()` when an iteration panics (a Go panic aborts the loop, so
the remaining domains are not processed). -/
def grabCertsLoop (blacklist : String → Bool)
    (dial : String → Except String ConnWithTimings)
    (pemOf : X509Cert → Option String) : List String → Except Unit (List masquerade)
  | [] => Except.ok []
  | d :: rest =>
    match grabCertsStep blacklist dial pemOf d with
    | ProbeOutcome.panicked => Except.error ()
    | ProbeOutcome.emitted m => (grabCertsLoop blacklist dial pemOf rest).map (m :: ·)
    | _ => grabCertsLoop blacklist dial pemOf rest

theorem newline_not_mem_escapeChars (l : List Char) : '\n' ∉ escapeChars l := by
  induction l with
  | nil => simp [escapeChars]
  | cons c rest ih =>
    by_cases h : c = '\n'
    · simp only [escapeChars, if_pos h, List.mem_cons]
      push_neg
      exact ⟨by decide, by decide, ih⟩
    · simp only [escapeChars, if_neg h, List.mem_cons]
      push_neg
      exact ⟨fun e => h e.symm, ih⟩

/-- C5 fails on the code: a successful dial whose `VerifiedChains` slice is
empty reaches the unguarded indexing `cwt.VerifiedChains[0]` (and an empty
first chain would reach `chain[len(chain)-1]`): the worker panics instead
of logging and skipping, and its remaining domains are not processed. -/
theorem grabCerts_empty_chain_panics :
    grabCertsStep (fun _ => false)
        (fun _ => Except.ok { VerifiedChains := [], ResolvedIP := "9.9.9.9" })
        (fun _ => none) "a.example" = ProbeOutcome.panicked
    ∧ grabCertsStep (fun _ => false)
        (fun _ => Except.ok { VerifiedChains := [[]], ResolvedIP := "9.9.9.9" })
        (fun _ => none) "a.example" = ProbeOutcome.panicked
    ∧ grabCertsLoop (fun _ => false)
        (fun _ => Except.ok { VerifiedChains := [], ResolvedIP := "9.9.9.9" })
        (fun _ => none) ["a.example", "b.example"] = Except.error () :=
  ⟨rfl, rfl, rfl⟩

/-- C7: a blacklisted domain is skipped before any network call: the step
emits nothing (`skippedBlacklisted`) and its outcome is independent of the
dialing and PEM-encoding collaborators, so no dial is performed. -/
theorem blacklisted_skipped_before_dial (blacklist : String → Bool)
    (dial dial' : String → Except String ConnWithTimings)
    (pemOf pemOf' : X509Cert → Option String) (d : String)
    (h : blacklist d = true) :
    grabCertsStep blacklist dial pemOf d = ProbeOutcome.skippedBlacklisted
    ∧ grabCertsStep blacklist dial pemOf d = grabCertsStep blacklist dial' pemOf' d := by
  constructor <;> simp [grabCertsStep, h]

/-- Witness for C7 at a concrete blacklisted domain. -/
theorem blacklisted_skipped_before_dial_witness :
    ((fun s => decide (s = "blacklisted.example")) "blacklisted.example" = true)
    ∧ (grabCertsStep (fun s => decide (s = "blacklisted.example"))
          (fun _ => Except.error "network down") (fun _ => none) "blacklisted.example"
        = ProbeOutcome.skippedBlacklisted
      ∧ grabCertsStep (fun s => decide (s = "blacklisted.example"))
          (fun _ => Except.error "network down") (fun _ => none) "blacklisted.example"
        = grabCertsStep (fun s => decide (s = "blacklisted.example"))
            (fun _ => Except.ok { VerifiedChains := [], ResolvedIP := "1.1.1.1" })
            (fun c => some c.subjectCommonName) "blacklisted.example") :=
  ⟨by simp,
    blacklisted_skipped_before_dial (fun s => decide (s = "blacklisted.example"))
      (fun _ => Except.error "network down")
      (fun _ => Except.ok { VerifiedChains := [], ResolvedIP := "1.1.1.1" })
      (fun _ => none) (fun c => some c.subjectCommonName) "blacklisted.example" (by simp)⟩

/-- C8: on a successful probe the emitted masquerade's root CA is the last
certificate of the first verified chain, its `CommonName` is that
certificate's subject common name, and its `Cert` is that certificate's PEM
encoding with every newline replaced by the two-character sequence
backslash-`n`, so the stored `Cert` contains no raw newline character. -/
theorem probe_success_fields (blacklist : String → Bool)
    (dial : String → Except String ConnWithTimings) (pemOf : X509Cert → Option String)
    (d : String) (cwt : ConnWithTimings) (chain : List X509Cert) (rootCA : X509Cert)
    (pem : String)
    (hb : blacklist d = false) (hd : dial d = Except.ok cwt)
    (hc : cwt.VerifiedChains.head? = some chain) (hr : chain.getLast? = some rootCA)
    (hp : pemOf rootCA = some pem) :
    grabCertsStep blacklist dial pemOf d
      = ProbeOutcome.emitted
          { Domain := d, IpAddress := cwt.ResolvedIP,
            RootCA := { CommonName := rootCA.subjectCommonName,
                        Cert := escapeNewlines pem, freq := 0 } }
    ∧ '\n' ∉ (escapeNewlines pem).data := by
  refine ⟨?_, newline_not_mem_escapeChars pem.data⟩
  simp [grabCertsStep, hb, hd, hc, hr, hp]

/-- Witness for C8 at a concrete successful probe. -/
theorem probe_success_fields_witness :
    ((fun _ : String => false) "a.example" = false)
    ∧ ((fun _ : String =>
          (Except.ok (ConnWithTimings.mk [[X509Cert.mk "Example Root"]] "1.2.3.4") :
            Except String ConnWithTimings))
        "a.example" = Except.ok (ConnWithTimings.mk [[X509Cert.mk "Example Root"]] "1.2.3.4"))
    ∧ ((ConnWithTimings.mk [[X509Cert.mk "Example Root"]] "1.2.3.4").VerifiedChains.head?
        = some [X509Cert.mk "Example Root"])
    ∧ ([X509Cert.mk "Example Root"].getLast? = some (X509Cert.mk "Example Root"))
    ∧ ((fun _ : X509Cert => some "PEM\nBODY") (X509Cert.mk "Example Root") = some "PEM\nBODY")
    ∧ (grabCertsStep (fun _ => false)
          (fun _ => Except.ok (ConnWithTimings.mk [[X509Cert.mk "Example Root"]] "1.2.3.4"))
          (fun _ => some "PEM\nBODY") "a.example"
        = ProbeOutcome.emitted
            { Domain := "a.example",
              IpAddress := (ConnWithTimings.mk [[X509Cert.mk "Example Root"]] "1.2.3.4").ResolvedIP,
              RootCA := { CommonName := (X509Cert.mk "Example Root").subjectCommonName,
                          Cert := escapeNewlines "PEM\nBODY", freq := 0 } }
      ∧ '\n' ∉ (escapeNewlines "PEM\nBODY").data) :=
  ⟨rfl, rfl, rfl, rfl, rfl,
    probe_success_fields (fun _ => false)
      (fun _ => Except.ok (ConnWithTimings.mk [[X509Cert.mk "Example Root"]] "1.2.3.4"))
      (fun _ => some "PEM\nBODY") "a.example"
      (ConnWithTimings.mk [[X509Cert.mk "Example Root"]] "1.2.3.4")
      [X509Cert.mk "Example Root"] (X509Cert.mk "Example Root") "PEM\nBODY"
      rfl rfl rfl rfl rfl⟩


/-! The model assembly of `buildModel` and its sort orders. -/

/-- Sortedness relation realised by `sort.Sort(ByFreq(casList))`: `ByFreq`'s
`Less(i, j)` is `a[i].freq > a[j].freq`, so a sorted slice has non-increasing
frequencies. -/
def ByFreqOrd (a b : castat) : Prop := b.freq ≤ a.freq

/-- Sortedness relation realised by `sort.Sort(ByDomain(masquerades))`:
`ByDomain`'s `Less(i, j)` is `a[i].Domain < a[j].Domain`, so a sorted slice
has non-decreasing domains. -/
def ByDomainOrd (a b : masquerade) : Prop := a.Domain ≤ b.Domain

instance : DecidableRel ByFreqOrd :=
  fun a b => inferInstanceAs (Decidable (b.freq ≤ a.freq))

instance : DecidableRel ByDomainOrd :=
  fun a b => inferInstanceAs (Decidable (a.Domain ≤ b.Domain))

instance : IsTotal castat ByFreqOrd := ⟨fun a b => le_total b.freq a.freq⟩

instance : IsTrans castat ByFreqOrd := ⟨fun _ _ _ h1 h2 => le_trans h2 h1⟩

instance : IsTotal masquerade ByDomainOrd := ⟨fun a b => le_total a.Domain b.Domain⟩

instance : IsTrans masquerade ByDomainOrd := ⟨fun _ _ _ h1 h2 => le_trans h1 h2⟩

/-- The template data assembled by `buildModel`:
`{"cas": ..., "masquerades": ..., "proxiedsites": ...}`. -/
structure Model where
  cas : List castat
  masquerades : List masquerade
  proxiedsites : List String
deriving Repr

/-- Function `buildModel`: collect the trusted-CA map's values, sort them by
descending frequency, sort the masquerades by ascending domain, and package
them with the proxied-sites set. `sort.Sort` is modelled by
`List.insertionSort` over the corresponding total preorder (its contract is
a permutation ordered by `Less`; map iteration order before sorting is
irrelevant to the result's sortedness). -/
def buildModel (cas : List (String × castat)) (masquerades : List masquerade)
    (proxiedSites : List String) : Model :=
  { cas := List.insertionSort ByFreqOrd (cas.map Prod.snd)
    masquerades := List.insertionSort ByDomainOrd masquerades
    proxiedsites := proxiedSites }

/-- C6: in the built model, the trusted-CA list is sorted by relative
frequency in descending order (ties in any order) and the trusted-masquerade
list is sorted by domain name in ascending lexicographic order. -/
theorem buildModel_sorted (cas : List (String × castat)) (masquerades : List masquerade)
    (proxiedSites : List String) :
    List.Sorted ByFreqOrd (buildModel cas masquerades proxiedSites).cas
    ∧ List.Sorted ByDomainOrd (buildModel cas masquerades proxiedSites).masquerades :=
  ⟨List.sorted_insertionSort ByFreqOrd _, List.sorted_insertionSort ByDomainOrd _⟩

/-! The proxy client's request director (`buildReverseProxy`) and
`isNotLoopback`. -/

/-- The part of a resolved `net.IPAddr` the director reads: whether
`ip.IP.IsLoopback()` holds. -/
structure IPAddr where
  isLoopback : Bool
deriving DecidableEq, Repr

/-- Embeds `strings.Split(addr, ":")[0]` on the character list: everything before
the first colon. -/
def beforeColon : List Char → List Char
  | [] => []
  | c :: rest => if c = ':' then [] else c :: beforeColon rest

/-- Embeds `strings.Split(addr, ":")[0]`. -/
def hostOnly (addr : String) : String := ⟨beforeColon addr.data⟩

/-- Function `isNotLoopback` from the proxy client, with `resolve` standing for the
external `net.ResolveIPAddr("ip4", ·)` (`none` on resolution error):
`err == nil && !ip.IP.IsLoopback()`. -/
def isNotLoopback (resolve : String → Option IPAddr) (addr : String) : Bool :=
  match resolve (hostOnly addr) with
  | none => false
  | some ip => !ip.isLoopback

/-- The part of an `http.Request` the director inspects, plus an opaque rest
that `RewriteRequest` may mutate. -/
structure Request where
  Host : String
  Rest : String
deriving DecidableEq, Repr

/-- The `Director` of the reverse proxy built in `buildReverseProxy`: apply
the host-spoofing protocol's `RewriteRequest` unless the request is to a
loopback/unresolvable address and `ShouldProxyLoopback` is unset.
(`ShouldDumpHeaders` only logs; it does not alter the request.) -/
def director (shouldProxyLoopback : Bool) (resolve : String → Option IPAddr)
    (rewriteRequest : Request → Request) (req : Request) : Request :=
  if shouldProxyLoopback || isNotLoopback resolve req.Host then rewriteRequest req else req

/-- C9: a request whose host resolves to a loopback address passes through
the director unmodified when `ShouldProxyLoopback` is false; when
`ShouldProxyLoopback` is true, `RewriteRequest` is applied to every request,
loopback ones included. -/
theorem loopback_passthrough (resolve : String → Option IPAddr)
    (rewriteRequest : Request → Request) (req : Request) (ip : IPAddr)
    (hres : resolve (hostOnly req.Host) = some ip) (hlo : ip.isLoopback = true) :
    director false resolve rewriteRequest req = req
    ∧ ∀ req2 : Request, director true resolve rewriteRequest req2 = rewriteRequest req2 := by
  refine ⟨?_, fun req2 => by simp [director]⟩
  simp [director, isNotLoopback, hres, hlo]

/-- Witness for C9 at a concrete loopback request. -/
theorem loopback_passthrough_witness :
    ((fun _ : String => some (IPAddr.mk true)) (hostOnly "localhost:8080")
        = some (IPAddr.mk true))
    ∧ ((IPAddr.mk true).isLoopback = true)
    ∧ (director false (fun _ => some (IPAddr.mk true))
          (fun r => { r with Rest := "rewritten" }) (Request.mk "localhost:8080" "orig")
        = Request.mk "localhost:8080" "orig"
      ∧ ∀ req2 : Request,
          director true (fun _ => some (IPAddr.mk true))
            (fun r => { r with Rest := "rewritten" }) req2
          = { req2 with Rest := "rewritten" }) :=
  ⟨rfl, rfl,
    loopback_passthrough (fun _ => some (IPAddr.mk true))
      (fun r => { r with Rest := "rewritten" })
      (Request.mk "localhost:8080" "orig") (IPAddr.mk true) rfl rfl⟩

/-- C10: when IPv4 resolution of the request's host fails, `isNotLoopback`
returns false, and with `ShouldProxyLoopback` false the director does not
apply `RewriteRequest` to that request. -/
theorem resolve_failure_no_rewrite (resolve : String → Option IPAddr)
    (rewriteRequest : Request → Request) (req : Request)
    (hres : resolve (hostOnly req.Host) = none) :
    isNotLoopback resolve req.Host = false
    ∧ director false resolve rewriteRequest req = req := by
  constructor
  · simp [isNotLoopback, hres]
  · simp [director, isNotLoopback, hres]

/-- Witness for C10 at a concrete unresolvable host. -/
theorem resolve_failure_no_rewrite_witness :
    ((fun _ : String => (none : Option IPAddr)) (hostOnly "no-such-host.invalid:443") = none)
    ∧ (isNotLoopback (fun _ => none) "no-such-host.invalid:443" = false
      ∧ director false (fun _ => none) (fun r => { r with Rest := "rewritten" })
          (Request.mk "no-such-host.invalid:443" "orig")
        = Request.mk "no-such-host.invalid:443" "orig") :=
  ⟨rfl,
    resolve_failure_no_rewrite (fun _ => none) (fun r => { r with Rest := "rewritten" })
      (Request.mk "no-such-host.invalid:443" "orig") rfl⟩

end Flashlight
